import Mathlib

/-!
Shallow embedding of the breakout detector in `src/src/types/chart.ts`
(the `KlineData` and `BreakoutSignal` interfaces and the `detectBreakout`
function), together with theorems settling the specification claims.

Modelling conventions:
* JavaScript numbers are modelled as exact rationals (`ℚ`); the spec describes
  prices as non-negative real numbers and the algorithm is pure arithmetic
  (comparisons and multiplication by the literals `1.002` and `0.998`).
* `Math.max(...highs)` over an empty spread evaluates to `-Infinity`, and
  `Math.min(...lows)` to `+Infinity`.  These extended values are modelled by
  `Option ℚ`, `none` standing for the infinite value of the respective sign;
  multiplying an infinity by the positive constants `1.002` / `0.998` leaves
  it unchanged, and every finite rational compares above `-Infinity` and
  below `+Infinity`.
* The main embedding `detectBreakout` takes the lookback `period` as a natural
  number.  A second embedding `detectBreakoutJS` takes `period : ℤ` and also
  models the JavaScript behaviour for negative periods, where the loop starts
  at a negative index, `candles[i]` yields `undefined`, and the later `.close`
  access throws a `TypeError` (modelled as `Except.error`).
-/

/-- The `KlineData` interface (chart.ts lines 4–11): one candlestick.
The `open` field is renamed `open_` because `open` is a Lean keyword. -/
structure KlineData where
  time : ℤ
  open_ : ℚ
  high : ℚ
  close : ℚ
  low : ℚ
  volume : ℚ
  deriving DecidableEq, Repr

/-- The `type` field of `BreakoutSignal`: `'support' | 'resistance'`. -/
inductive SignalType where
  | support
  | resistance
  deriving DecidableEq, Repr

/-- The `BreakoutSignal` interface (chart.ts lines 16–21). -/
structure BreakoutSignal where
  time : ℤ
  type : SignalType
  price : ℚ
  confirmed : Bool
  deriving DecidableEq, Repr

/-- `Math.max(...xs)` over a spread list of finite numbers: `none` encodes the
empty case, where JavaScript returns `-Infinity`. -/
def jsMax : List ℚ → Option ℚ
  | [] => none
  | a :: l =>
    match jsMax l with
    | none => some a
    | some m => some (max a m)

/-- `Math.min(...xs)` over a spread list of finite numbers: `none` encodes the
empty case, where JavaScript returns `+Infinity`. -/
def jsMin : List ℚ → Option ℚ
  | [] => none
  | a :: l =>
    match jsMin l with
    | none => some a
    | some m => some (min a m)

/-- The comparison `c > x` where `x : Option ℚ`, `none` standing for
`-Infinity` (every finite number is greater than `-Infinity`). -/
def jsGtBot (c : ℚ) (x : Option ℚ) : Bool :=
  match x with
  | none => true
  | some r => decide (r < c)

/-- The comparison `c < x` where `x : Option ℚ`, `none` standing for
`+Infinity` (every finite number is less than `+Infinity`). -/
def jsLtTop (c : ℚ) (x : Option ℚ) : Bool :=
  match x with
  | none => true
  | some s => decide (c < s)

/-- `candles.slice(i - period, i)` (chart.ts line 41): the baseline window of
the `period` candles preceding index `i`.  For the indices reached by the
scan, `i - period ≥ 0` and the slice is `drop (i - period)` then
`take (i - (i - period)) = take period`. -/
def windowCandles (candles : List KlineData) (period i : ℕ) : List KlineData :=
  (candles.drop (i - period)).take period

/-- The local `resistance` of the loop body (chart.ts lines 45 and 48):
`Math.max(...windowCandles.map(c => c.high))`. -/
def resistanceLevel (candles : List KlineData) (period i : ℕ) : Option ℚ :=
  jsMax ((windowCandles candles period i).map (fun c => c.high))

/-- The local `support` of the loop body (chart.ts lines 46 and 49):
`Math.min(...windowCandles.map(c => c.low))`. -/
def supportLevel (candles : List KlineData) (period i : ℕ) : Option ℚ :=
  jsMin ((windowCandles candles period i).map (fun c => c.low))

/-- The loop body of `detectBreakout` (chart.ts lines 41–71) for index `i`
with `current = candles[i]`: computes the window extrema and returns the
zero, one or two signals pushed for this index, resistance first. -/
def candleSignals (candles : List KlineData) (period i : ℕ)
    (current : KlineData) : List BreakoutSignal :=
  let resistance := resistanceLevel candles period i
  let support := supportLevel candles period i
  (if jsGtBot current.close (resistance.map (fun r => r * (1.002 : ℚ))) then
    [{ time := current.time, type := SignalType.resistance,
       price := current.close,
       confirmed := jsGtBot current.close resistance &&
         jsGtBot current.open_ resistance }]
  else []) ++
  (if jsLtTop current.close (support.map (fun s => s * (0.998 : ℚ))) then
    [{ time := current.time, type := SignalType.support,
       price := current.close,
       confirmed := jsLtTop current.close support &&
         jsLtTop current.open_ support }]
  else [])

/-- One iteration of the scan at index `i`: looks up `candles[i]` and runs the
loop body.  The `none` branch is unreachable for the indices the loop visits
(`i < candles.length`). -/
def stepAt (candles : List KlineData) (period i : ℕ) : List BreakoutSignal :=
  match candles.get? i with
  | some current => candleSignals candles period i current
  | none => []

/-- `detectBreakout` (chart.ts lines 31–75) with a natural-number period:
if `candles.length < period` return no signals, otherwise scan indices
`i = period, …, candles.length - 1` and concatenate the signals pushed at
each index. -/
def detectBreakout (candles : List KlineData) (period : ℕ) :
    List BreakoutSignal :=
  if candles.length < period then []
  else (List.range' period (candles.length - period)).flatMap
    (stepAt candles period)

/-- A flat, well-formed candle used by concrete witnesses. -/
def candleFlat : KlineData :=
  { time := 0, open_ := 95, high := 100, close := 95, low := 90, volume := 1 }

/-- A candle breaking above resistance 100 with both open and close beyond
it (spec §8, first example). -/
def candleUp : KlineData :=
  { time := 1, open_ := 101.5, high := 103, close := 102.5, low := 101, volume := 1 }

/-- A candle whose close triggers the resistance breakout but whose open
stays below the level (spec §8, second example). -/
def candleGap : KlineData :=
  { time := 1, open_ := 99.5, high := 103, close := 100.5, low := 99, volume := 1 }

/-- A malformed candle (`low > high`), permitted by the detector which never
validates candles (spec §7). -/
def candleWild : KlineData :=
  { time := 0, open_ := 1, high := 1, close := 1, low := 1000, volume := 0 }

/-- A candle sitting between `candleWild`'s high and low, so that it crosses
both scaled thresholds at once. -/
def candleMid : KlineData :=
  { time := 1, open_ := 500, high := 500, close := 500, low := 500, volume := 0 }

/-- The message of the `TypeError` thrown when the loop body reads `.close`
on `candles[i] === undefined` (chart.ts line 52 after line 42 indexed out of
range). -/
def typeErrMsg : String := "TypeError: cannot read properties of undefined"

/-- The `for` loop of `detectBreakout` (chart.ts lines 40–72) with a signed
loop variable `i`, as JavaScript runs it: while `i < candles.length`, read
`candles[i]`; an index outside `[0, candles.length)` yields `undefined` and
the subsequent property access throws a `TypeError`; otherwise push the
signals of the loop body and continue with `i + 1`.  `fuel` bounds the
number of iterations; the caller passes enough for the whole scan. -/
def detectJSLoop (candles : List KlineData) (period : ℤ) :
    ℕ → ℤ → Except String (List BreakoutSignal)
  | 0, _ => Except.ok []
  | fuel + 1, i =>
    if hlt : i < (candles.length : ℤ) then
      if hge : 0 ≤ i then
        match detectJSLoop candles period fuel (i + 1) with
        | Except.error e => Except.error e
        | Except.ok rest =>
          Except.ok (candleSignals candles period.toNat i.toNat
            (candles.get ⟨i.toNat, by omega⟩) ++ rest)
      else Except.error typeErrMsg
    else Except.ok []

/-- `detectBreakout` with the JavaScript `number` period allowed to be
negative: `candles.length < period` still short-circuits to no signals, and
otherwise the loop starts at `i = period`, which for a negative period
immediately dereferences `undefined` and throws. -/
def detectBreakoutJS (candles : List KlineData) (period : ℤ) :
    Except String (List BreakoutSignal) :=
  if (candles.length : ℤ) < period then Except.ok []
  else detectJSLoop candles period ((candles.length : ℤ) - period).toNat period

theorem jsMax_ne_none (a : ℚ) (l : List ℚ) : jsMax (a :: l) ≠ none := by
  unfold jsMax
  cases jsMax l <;> simp

theorem jsMax_eq_none_iff (l : List ℚ) : jsMax l = none ↔ l = [] := by
  cases l with
  | nil => simp [jsMax]
  | cons a l =>
    constructor
    · intro h
      exact absurd h (jsMax_ne_none a l)
    · intro h
      cases h

theorem jsMin_ne_none (a : ℚ) (l : List ℚ) : jsMin (a :: l) ≠ none := by
  unfold jsMin
  cases jsMin l <;> simp

theorem jsMin_eq_none_iff (l : List ℚ) : jsMin l = none ↔ l = [] := by
  cases l with
  | nil => simp [jsMin]
  | cons a l =>
    constructor
    · intro h
      exact absurd h (jsMin_ne_none a l)
    · intro h
      cases h

/-- `Math.max(...l)` returns the greatest element of a nonempty list. -/
theorem jsMax_spec (l : List ℚ) (M : ℚ) (h : jsMax l = some M) :
    M ∈ l ∧ ∀ x ∈ l, x ≤ M := by
  induction l generalizing M with
  | nil => simp [jsMax] at h
  | cons a l ih =>
    rw [jsMax] at h
    cases hl : jsMax l with
    | none =>
      rw [hl] at h
      simp only [Option.some.injEq] at h
      subst h
      have hnil : l = [] := (jsMax_eq_none_iff l).mp hl
      subst hnil
      refine ⟨List.mem_singleton.mpr rfl, ?_⟩
      intro x hx
      rw [List.mem_singleton] at hx
      exact le_of_eq hx
    | some m =>
      rw [hl] at h
      simp only [Option.some.injEq] at h
      subst h
      obtain ⟨hm, hle⟩ := ih m hl
      constructor
      · rcases max_choice a m with hc | hc <;> rw [hc]
        · exact List.mem_cons_self a l
        · exact List.mem_cons_of_mem a hm
      · intro x hx
        rcases List.mem_cons.mp hx with hx | hx
        · rw [hx]
          exact le_max_left a m
        · exact (hle x hx).trans (le_max_right a m)

/-- `Math.min(...l)` returns the least element of a nonempty list. -/
theorem jsMin_spec (l : List ℚ) (m : ℚ) (h : jsMin l = some m) :
    m ∈ l ∧ ∀ x ∈ l, m ≤ x := by
  induction l generalizing m with
  | nil => simp [jsMin] at h
  | cons a l ih =>
    rw [jsMin] at h
    cases hl : jsMin l with
    | none =>
      rw [hl] at h
      simp only [Option.some.injEq] at h
      subst h
      have hnil : l = [] := (jsMin_eq_none_iff l).mp hl
      subst hnil
      refine ⟨List.mem_singleton.mpr rfl, ?_⟩
      intro x hx
      rw [List.mem_singleton] at hx
      exact ge_of_eq hx
    | some m' =>
      rw [hl] at h
      simp only [Option.some.injEq] at h
      subst h
      obtain ⟨hm, hle⟩ := ih m' hl
      constructor
      · rcases min_choice a m' with hc | hc <;> rw [hc]
        · exact List.mem_cons_self a l
        · exact List.mem_cons_of_mem a hm
      · intro x hx
        rcases List.mem_cons.mp hx with hx | hx
        · rw [hx]
          exact min_le_left a m'
        · exact (min_le_right a m').trans (hle x hx)

theorem jsMax_of_ne_nil (l : List ℚ) (h : l ≠ []) : ∃ M, jsMax l = some M := by
  cases hl : jsMax l with
  | none => exact absurd ((jsMax_eq_none_iff l).mp hl) h
  | some M => exact ⟨M, rfl⟩

theorem jsMin_of_ne_nil (l : List ℚ) (h : l ≠ []) : ∃ m, jsMin l = some m := by
  cases hl : jsMin l with
  | none => exact absurd ((jsMin_eq_none_iff l).mp hl) h
  | some m => exact ⟨m, rfl⟩

/-- Inside the scan range the baseline window holds exactly `period`
candles. -/
theorem length_windowCandles (candles : List KlineData) (period i : ℕ)
    (h1 : period ≤ i) (h2 : i < candles.length) :
    (windowCandles candles period i).length = period := by
  simp only [windowCandles, List.length_take, List.length_drop]
  omega

theorem mem_of_mem_windowCandles {candles : List KlineData} {period i : ℕ}
    {c : KlineData} (h : c ∈ windowCandles candles period i) : c ∈ candles :=
  List.mem_of_mem_drop (List.mem_of_mem_take h)

/-- The guard `candles.length < period` of `detectBreakout` is redundant for
a natural-number period: the scan is the same concatenation in both cases. -/
theorem detectBreakout_eq_flatMap (candles : List KlineData) (period : ℕ) :
    detectBreakout candles period =
      (List.range' period (candles.length - period)).flatMap
        (stepAt candles period) := by
  unfold detectBreakout
  split
  · next h =>
    have h0 : candles.length - period = 0 := by omega
    rw [h0]
    rfl
  · rfl

theorem mem_detectBreakout_iff {candles : List KlineData} {period : ℕ}
    {s : BreakoutSignal} :
    s ∈ detectBreakout candles period ↔
      ∃ i, period ≤ i ∧ i < candles.length ∧ s ∈ stepAt candles period i := by
  rw [detectBreakout_eq_flatMap, List.mem_flatMap]
  constructor
  · rintro ⟨i, hmem, hs⟩
    obtain ⟨h1, h2⟩ := List.mem_range'_1.mp hmem
    exact ⟨i, h1, by omega, hs⟩
  · rintro ⟨i, h1, h2, hs⟩
    exact ⟨i, List.mem_range'_1.mpr ⟨h1, by omega⟩, hs⟩

theorem time_price_of_mem_candleSignals {candles : List KlineData}
    {period i : ℕ} {current : KlineData} {s : BreakoutSignal}
    (h : s ∈ candleSignals candles period i current) :
    s.time = current.time ∧ s.price = current.close := by
  simp only [candleSignals] at h
  rcases List.mem_append.mp h with h | h <;> split at h <;> simp_all

theorem stepAt_time_price {candles : List KlineData} {period i : ℕ}
    {s : BreakoutSignal} (h : s ∈ stepAt candles period i) :
    ∃ current, candles.get? i = some current ∧
      s.time = current.time ∧ s.price = current.close := by
  unfold stepAt at h
  cases hc : candles.get? i with
  | none =>
    rw [hc] at h
    cases h
  | some current =>
    rw [hc] at h
    exact ⟨current, rfl, time_price_of_mem_candleSignals h⟩

theorem exists_type_append_ite (b1 b2 : Bool) (x y : BreakoutSignal)
    (hx : x.type = SignalType.resistance) (hy : y.type = SignalType.support) :
    ((∃ s ∈ (if b1 then [x] else []) ++ (if b2 then [y] else []),
        s.type = SignalType.resistance) ↔ b1 = true) ∧
    ((∃ s ∈ (if b1 then [x] else []) ++ (if b2 then [y] else []),
        s.type = SignalType.support) ↔ b2 = true) := by
  cases b1 <;> cases b2 <;> constructor <;> simp_all

theorem res_emitted_iff (candles : List KlineData) (period i : ℕ)
    (current : KlineData) :
    (∃ s ∈ candleSignals candles period i current,
        s.type = SignalType.resistance) ↔
      jsGtBot current.close
        ((resistanceLevel candles period i).map
          (fun r => r * (1.002 : ℚ))) = true := by
  simp only [candleSignals]
  exact (exists_type_append_ite _ _ _ _ rfl rfl).1

theorem sup_emitted_iff (candles : List KlineData) (period i : ℕ)
    (current : KlineData) :
    (∃ s ∈ candleSignals candles period i current,
        s.type = SignalType.support) ↔
      jsLtTop current.close
        ((supportLevel candles period i).map
          (fun s' => s' * (0.998 : ℚ))) = true := by
  simp only [candleSignals]
  exact (exists_type_append_ite _ _ _ _ rfl rfl).2

/-- Every member of the loop-body output is the pushed resistance record
under its trigger condition or the pushed support record under its trigger
condition. -/
theorem mem_candleSignals_cases {candles : List KlineData} {period i : ℕ}
    {current : KlineData} {s : BreakoutSignal}
    (h : s ∈ candleSignals candles period i current) :
    (jsGtBot current.close ((resistanceLevel candles period i).map
        (fun r => r * (1.002 : ℚ))) = true ∧
      s = { time := current.time, type := SignalType.resistance,
            price := current.close,
            confirmed := jsGtBot current.close (resistanceLevel candles period i) &&
              jsGtBot current.open_ (resistanceLevel candles period i) }) ∨
    (jsLtTop current.close ((supportLevel candles period i).map
        (fun s' => s' * (0.998 : ℚ))) = true ∧
      s = { time := current.time, type := SignalType.support,
            price := current.close,
            confirmed := jsLtTop current.close (supportLevel candles period i) &&
              jsLtTop current.open_ (supportLevel candles period i) }) := by
  simp only [candleSignals] at h
  rcases List.mem_append.mp h with h | h <;> split at h
  · next hcond =>
    left
    exact ⟨hcond, List.mem_singleton.mp h⟩
  · cases h
  · next hcond =>
    right
    exact ⟨hcond, List.mem_singleton.mp h⟩
  · cases h

/-- C3: for every candle sequence whose length is strictly less than the
window, `detectBreakout` returns the empty signal list — an ordinary result,
not an error. -/
theorem detect_short_input (candles : List KlineData) (period : ℕ)
    (h : candles.length < period) : detectBreakout candles period = [] := by
  simp [detectBreakout, h]

theorem detect_short_input_witness :
    [candleFlat].length < 20 ∧ detectBreakout [candleFlat] 20 = [] :=
  ⟨by decide, detect_short_input [candleFlat] 20 (by decide)⟩

/-- C9: when the input length equals the window exactly, the guard does not
fire but the scan range `i = window, …, length - 1` is empty, so
`detectBreakout` still returns the empty signal list. -/
theorem detect_length_eq_window (candles : List KlineData) (period : ℕ)
    (h : candles.length = period) : detectBreakout candles period = [] := by
  rw [detectBreakout_eq_flatMap, h]
  simp

theorem detect_length_eq_window_witness :
    [candleFlat, candleUp].length = 2 ∧
      detectBreakout [candleFlat, candleUp] 2 = [] :=
  ⟨by decide, detect_length_eq_window [candleFlat, candleUp] 2 (by decide)⟩

/-- C10: `detectBreakout` (and its signed-period variant) is a pure function
of the candle list and the window: two calls on equal inputs return equal
outputs, with no hidden state in the embedding. -/
theorem detect_deterministic (c1 c2 : List KlineData) (p1 p2 : ℕ)
    (q1 q2 : ℤ) (hc : c1 = c2) (hp : p1 = p2) (hq : q1 = q2) :
    detectBreakout c1 p1 = detectBreakout c2 p2 ∧
      detectBreakoutJS c1 q1 = detectBreakoutJS c2 q2 := by
  rw [hc, hp, hq]
  exact ⟨rfl, rfl⟩

theorem detect_deterministic_witness :
    detectBreakout [candleFlat, candleUp] 1 =
        detectBreakout [candleFlat, candleUp] 1 ∧
      detectBreakoutJS [candleFlat, candleUp] 1 =
        detectBreakoutJS [candleFlat, candleUp] 1 :=
  detect_deterministic [candleFlat, candleUp] [candleFlat, candleUp] 1 1 1 1
    rfl rfl rfl

/-- C7: the resistance and support tests are independent and non-exclusive:
every scan index contributes at most two signals, and there is an input
(a window candle with `low > high`, which the detector never rejects) for
which one candle emits both a resistance and a support signal. -/
theorem detect_dual_signals :
    (∀ (candles : List KlineData) (period i : ℕ),
      (stepAt candles period i).length ≤ 2) ∧
    detectBreakout [candleWild, candleMid] 1 =
      [{ time := 1, type := SignalType.resistance, price := 500,
         confirmed := true },
       { time := 1, type := SignalType.support, price := 500,
         confirmed := true }] := by
  constructor
  · intro candles period i
    unfold stepAt
    cases candles.get? i with
    | none => simp
    | some current =>
      simp only [candleSignals]
      split <;> split <;> simp
  · set_option maxRecDepth 4000 in with_unfolding_all decide

/-- C1: for a positive window and any scanned index `i` (so `window ≤ i` and
`candles[i]` exists, forcing `length ≥ window + 1`), the loop body emits a
resistance signal iff the close of `candles[i]` strictly exceeds the maximum
high of the baseline window times `1.002`, and a support signal iff its close
is strictly below the minimum low of the baseline window times `0.998`.
`M` and `m` are that maximum and minimum, characterised as greatest and least
members of the window's highs and lows. -/
theorem detect_threshold_iff (candles : List KlineData) (period : ℕ)
    (hp : 0 < period) (i : ℕ) (current : KlineData) (hi : period ≤ i)
    (hcur : candles.get? i = some current) (M m : ℚ)
    (hM : M ∈ (windowCandles candles period i).map (fun c => c.high) ∧
      ∀ x ∈ (windowCandles candles period i).map (fun c => c.high), x ≤ M)
    (hm : m ∈ (windowCandles candles period i).map (fun c => c.low) ∧
      ∀ x ∈ (windowCandles candles period i).map (fun c => c.low), m ≤ x) :
    ((∃ s ∈ stepAt candles period i, s.type = SignalType.resistance) ↔
      M * (1.002 : ℚ) < current.close) ∧
    ((∃ s ∈ stepAt candles period i, s.type = SignalType.support) ↔
      current.close < m * (0.998 : ℚ)) := by
  have hlen : i < candles.length := by
    rcases List.get?_eq_some.mp hcur with ⟨hl, -⟩
    exact hl
  have hwne : (windowCandles candles period i).map (fun c => c.high) ≠ [] := by
    intro h0
    have hlw := congrArg List.length h0
    simp only [List.length_map, List.length_nil,
      length_windowCandles candles period i hi hlen] at hlw
    omega
  have hlne : (windowCandles candles period i).map (fun c => c.low) ≠ [] := by
    intro h0
    have hlw := congrArg List.length h0
    simp only [List.length_map, List.length_nil,
      length_windowCandles candles period i hi hlen] at hlw
    omega
  have hR : resistanceLevel candles period i = some M := by
    obtain ⟨M', hM'⟩ := jsMax_of_ne_nil _ hwne
    obtain ⟨hmem, hub⟩ := jsMax_spec _ _ hM'
    have heq : M' = M := le_antisymm (hM.2 _ hmem) (hub _ hM.1)
    rw [resistanceLevel, hM', heq]
  have hS : supportLevel candles period i = some m := by
    obtain ⟨m', hm'⟩ := jsMin_of_ne_nil _ hlne
    obtain ⟨hmem, hlb⟩ := jsMin_spec _ _ hm'
    have heq : m' = m := le_antisymm (hlb _ hm.1) (hm.2 _ hmem)
    rw [supportLevel, hm', heq]
  unfold stepAt
  rw [hcur]
  constructor
  · refine (res_emitted_iff candles period i current).trans ?_
    rw [hR]
    simp [jsGtBot]
  · refine (sup_emitted_iff candles period i current).trans ?_
    rw [hS]
    simp [jsLtTop]

theorem detect_threshold_iff_witness :
    ((100 : ℚ) ∈ (windowCandles [candleFlat, candleUp] 1 1).map
        (fun c => c.high)) ∧
    ((90 : ℚ) ∈ (windowCandles [candleFlat, candleUp] 1 1).map
        (fun c => c.low)) ∧
    ((∃ s ∈ stepAt [candleFlat, candleUp] 1 1,
        s.type = SignalType.resistance) ↔
      (100 : ℚ) * (1.002 : ℚ) < candleUp.close) ∧
    ((∃ s ∈ stepAt [candleFlat, candleUp] 1 1,
        s.type = SignalType.support) ↔
      candleUp.close < (90 : ℚ) * (0.998 : ℚ)) := by
  have h := detect_threshold_iff [candleFlat, candleUp] 1 (by decide) 1
    candleUp (by decide) (by with_unfolding_all decide) 100 90
    ⟨by with_unfolding_all decide, by with_unfolding_all decide⟩
    ⟨by with_unfolding_all decide, by with_unfolding_all decide⟩
  exact ⟨by with_unfolding_all decide, by with_unfolding_all decide, h.1, h.2⟩

theorem resistanceLevel_eq_of_greatest (candles : List KlineData)
    (period i : ℕ) (hp : 0 < period) (hi : period ≤ i)
    (hlen : i < candles.length) (M : ℚ)
    (hM : M ∈ (windowCandles candles period i).map (fun c => c.high) ∧
      ∀ x ∈ (windowCandles candles period i).map (fun c => c.high), x ≤ M) :
    resistanceLevel candles period i = some M := by
  have hwne : (windowCandles candles period i).map (fun c => c.high) ≠ [] := by
    intro h0
    have hlw := congrArg List.length h0
    simp only [List.length_map, List.length_nil,
      length_windowCandles candles period i hi hlen] at hlw
    omega
  obtain ⟨M', hM'⟩ := jsMax_of_ne_nil _ hwne
  obtain ⟨hmem, hub⟩ := jsMax_spec _ _ hM'
  have heq : M' = M := le_antisymm (hM.2 _ hmem) (hub _ hM.1)
  rw [resistanceLevel, hM', heq]

theorem supportLevel_eq_of_least (candles : List KlineData)
    (period i : ℕ) (hp : 0 < period) (hi : period ≤ i)
    (hlen : i < candles.length) (m : ℚ)
    (hm : m ∈ (windowCandles candles period i).map (fun c => c.low) ∧
      ∀ x ∈ (windowCandles candles period i).map (fun c => c.low), m ≤ x) :
    supportLevel candles period i = some m := by
  have hlne : (windowCandles candles period i).map (fun c => c.low) ≠ [] := by
    intro h0
    have hlw := congrArg List.length h0
    simp only [List.length_map, List.length_nil,
      length_windowCandles candles period i hi hlen] at hlw
    omega
  obtain ⟨m', hm'⟩ := jsMin_of_ne_nil _ hlne
  obtain ⟨hmem, hlb⟩ := jsMin_spec _ _ hm'
  have heq : m' = m := le_antisymm (hlb _ hm.1) (hm.2 _ hmem)
  rw [supportLevel, hm', heq]

/-- C2: every emitted signal is confirmed iff both the open and the close of
the triggering candle lie strictly beyond the unscaled window extremum
(`M`, the window's greatest high, for resistance; `m`, its least low, for
support) — not the `1.002` / `0.998`-scaled trigger threshold. -/
theorem detect_confirmed_iff (candles : List KlineData) (period : ℕ)
    (hp : 0 < period) (i : ℕ) (current : KlineData) (hi : period ≤ i)
    (hcur : candles.get? i = some current) (M m : ℚ)
    (hM : M ∈ (windowCandles candles period i).map (fun c => c.high) ∧
      ∀ x ∈ (windowCandles candles period i).map (fun c => c.high), x ≤ M)
    (hm : m ∈ (windowCandles candles period i).map (fun c => c.low) ∧
      ∀ x ∈ (windowCandles candles period i).map (fun c => c.low), m ≤ x) :
    ∀ s ∈ stepAt candles period i,
      (s.type = SignalType.resistance →
        (s.confirmed = true ↔ current.open_ > M ∧ current.close > M)) ∧
      (s.type = SignalType.support →
        (s.confirmed = true ↔ current.open_ < m ∧ current.close < m)) := by
  have hlen : i < candles.length := by
    rcases List.get?_eq_some.mp hcur with ⟨hl, -⟩
    exact hl
  have hR := resistanceLevel_eq_of_greatest candles period i hp hi hlen M hM
  have hS := supportLevel_eq_of_least candles period i hp hi hlen m hm
  intro s hs
  unfold stepAt at hs
  rw [hcur] at hs
  rcases mem_candleSignals_cases hs with ⟨-, rfl⟩ | ⟨-, rfl⟩
  · refine ⟨fun _ => ?_, fun habs => (SignalType.noConfusion habs)⟩
    simp only [hR, jsGtBot, Bool.and_eq_true, decide_eq_true_eq]
    exact and_comm
  · refine ⟨fun habs => (SignalType.noConfusion habs), fun _ => ?_⟩
    simp only [hS, jsLtTop, Bool.and_eq_true, decide_eq_true_eq]
    exact and_comm

theorem detect_confirmed_iff_witness :
    [candleFlat, candleGap].get? 1 = some candleGap ∧
    ∀ s ∈ stepAt [candleFlat, candleGap] 1 1,
      (s.type = SignalType.resistance →
        (s.confirmed = true ↔
          candleGap.open_ > (100 : ℚ) ∧ candleGap.close > (100 : ℚ))) ∧
      (s.type = SignalType.support →
        (s.confirmed = true ↔
          candleGap.open_ < (90 : ℚ) ∧ candleGap.close < (90 : ℚ))) :=
  ⟨by with_unfolding_all decide,
   detect_confirmed_iff [candleFlat, candleGap] 1 (by decide) 1 candleGap
     (by decide) (by with_unfolding_all decide) 100 90
     ⟨by with_unfolding_all decide, by with_unfolding_all decide⟩
     ⟨by with_unfolding_all decide, by with_unfolding_all decide⟩⟩

/-- C8: under the candle invariant that all prices are non-negative, the
resistance trigger `close > M * 1.002` already implies `close > M` (the
unscaled window maximum is non-negative), so the confirmation flag of an
emitted resistance signal reduces to `open > M` alone; symmetrically the
support trigger `close < m * 0.998` with `m ≥ 0` implies `close < m`, so
confirmation of an emitted support signal reduces to `open < m` alone. -/
theorem detect_confirmed_reduces (candles : List KlineData) (period : ℕ)
    (hp : 0 < period) (i : ℕ) (current : KlineData) (hi : period ≤ i)
    (hcur : candles.get? i = some current) (M m : ℚ)
    (hM : M ∈ (windowCandles candles period i).map (fun c => c.high) ∧
      ∀ x ∈ (windowCandles candles period i).map (fun c => c.high), x ≤ M)
    (hm : m ∈ (windowCandles candles period i).map (fun c => c.low) ∧
      ∀ x ∈ (windowCandles candles period i).map (fun c => c.low), m ≤ x)
    (hnn : ∀ c ∈ candles,
      0 ≤ c.open_ ∧ 0 ≤ c.high ∧ 0 ≤ c.low ∧ 0 ≤ c.close) :
    ∀ s ∈ stepAt candles period i,
      (s.type = SignalType.resistance →
        M < current.close ∧ (s.confirmed = true ↔ M < current.open_)) ∧
      (s.type = SignalType.support →
        current.close < m ∧ (s.confirmed = true ↔ current.open_ < m)) := by
  have hlen : i < candles.length := by
    rcases List.get?_eq_some.mp hcur with ⟨hl, -⟩
    exact hl
  have hR := resistanceLevel_eq_of_greatest candles period i hp hi hlen M hM
  have hS := supportLevel_eq_of_least candles period i hp hi hlen m hm
  have hM0 : 0 ≤ M := by
    obtain ⟨c, hcw, hch⟩ := List.mem_map.mp hM.1
    rw [← hch]
    exact (hnn c (mem_of_mem_windowCandles hcw)).2.1
  have hm0 : 0 ≤ m := by
    obtain ⟨c, hcw, hcl⟩ := List.mem_map.mp hm.1
    rw [← hcl]
    exact (hnn c (mem_of_mem_windowCandles hcw)).2.2.1
  intro s hs
  unfold stepAt at hs
  rw [hcur] at hs
  rcases mem_candleSignals_cases hs with ⟨hcond, rfl⟩ | ⟨hcond, rfl⟩
  · rw [hR] at hcond
    simp only [Option.map_some', jsGtBot, decide_eq_true_eq] at hcond
    have hclose : M < current.close := by
      have hup : M ≤ M * (1.002 : ℚ) := by nlinarith
      exact lt_of_le_of_lt hup hcond
    refine ⟨fun _ => ⟨hclose, ?_⟩, fun habs => (SignalType.noConfusion habs)⟩
    simp only [hR, jsGtBot, Bool.and_eq_true, decide_eq_true_eq]
    constructor
    · rintro ⟨-, h2⟩
      exact h2
    · intro h
      exact ⟨hclose, h⟩
  · rw [hS] at hcond
    simp only [Option.map_some', jsLtTop, decide_eq_true_eq] at hcond
    have hclose : current.close < m := by
      have hdn : m * (0.998 : ℚ) ≤ m := by nlinarith
      exact lt_of_lt_of_le hcond hdn
    refine ⟨fun habs => (SignalType.noConfusion habs), fun _ => ⟨hclose, ?_⟩⟩
    simp only [hS, jsLtTop, Bool.and_eq_true, decide_eq_true_eq]
    constructor
    · rintro ⟨-, h2⟩
      exact h2
    · intro h
      exact ⟨hclose, h⟩

theorem detect_confirmed_reduces_witness :
    [candleFlat, candleUp].get? 1 = some candleUp ∧
    ∀ s ∈ stepAt [candleFlat, candleUp] 1 1,
      (s.type = SignalType.resistance →
        (100 : ℚ) < candleUp.close ∧
          (s.confirmed = true ↔ (100 : ℚ) < candleUp.open_)) ∧
      (s.type = SignalType.support →
        candleUp.close < (90 : ℚ) ∧
          (s.confirmed = true ↔ candleUp.open_ < (90 : ℚ))) :=
  ⟨by with_unfolding_all decide,
   detect_confirmed_reduces [candleFlat, candleUp] 1 (by decide) 1 candleUp
     (by decide) (by with_unfolding_all decide) 100 90
     ⟨by with_unfolding_all decide, by with_unfolding_all decide⟩
     ⟨by with_unfolding_all decide, by with_unfolding_all decide⟩
     (by with_unfolding_all decide)⟩

/-- C6: with a positive window, every returned signal carries the `time` of
some input candle at an index at least `window`, and its `price` is that
triggering candle's closing price. -/
theorem detect_signal_time_price (candles : List KlineData) (period : ℕ)
    (_hp : 0 < period) :
    ∀ s ∈ detectBreakout candles period,
      ∃ i current, period ≤ i ∧ candles.get? i = some current ∧
        s.time = current.time ∧ s.price = current.close := by
  intro s hs
  obtain ⟨i, h1, h2, hstep⟩ := mem_detectBreakout_iff.mp hs
  obtain ⟨current, hcur, ht, hpz⟩ := stepAt_time_price hstep
  exact ⟨i, current, h1, hcur, ht, hpz⟩

theorem detect_signal_time_price_witness :
    0 < 1 ∧ ∀ s ∈ detectBreakout [candleFlat, candleUp] 1,
      ∃ i current, 1 ≤ i ∧ [candleFlat, candleUp].get? i = some current ∧
        s.time = current.time ∧ s.price = current.close :=
  ⟨by decide, detect_signal_time_price [candleFlat, candleUp] 1 (by decide)⟩

/-- C5: for strictly increasing candle times the output signal list is
ordered: any earlier signal has a strictly smaller time, except within one
scan index, where a resistance signal may precede a support signal of the
same time; in particular times are non-decreasing and signals of distinct
indices never share a time. -/
theorem detect_signals_sorted (candles : List KlineData) (period : ℕ)
    (h : List.Pairwise (fun a b => a.time < b.time) candles) :
    List.Pairwise (fun s t => s.time < t.time ∨
      (s.time = t.time ∧ s.type = SignalType.resistance ∧
        t.type = SignalType.support)) (detectBreakout candles period) := by
  rw [detectBreakout_eq_flatMap, List.pairwise_flatMap]
  constructor
  · intro i hmem
    unfold stepAt
    cases hc : candles.get? i with
    | none => simp
    | some current =>
      simp only [candleSignals]
      split <;> split <;> simp
  · have hlt : List.Pairwise (fun a b => a < b)
        (List.range' period (candles.length - period)) :=
      List.pairwise_lt_range' period (candles.length - period)
    refine hlt.imp ?_
    intro i j hij x hx y hy
    obtain ⟨ci, hci, hxt, -⟩ := stepAt_time_price hx
    obtain ⟨cj, hcj, hyt, -⟩ := stepAt_time_price hy
    left
    rw [hxt, hyt]
    obtain ⟨hilen, hgi⟩ := List.get?_eq_some.mp hci
    obtain ⟨hjlen, hgj⟩ := List.get?_eq_some.mp hcj
    have hij' := List.pairwise_iff_get.mp h ⟨i, hilen⟩ ⟨j, hjlen⟩
      (Fin.mk_lt_mk.mpr hij)
    rw [hgi, hgj] at hij'
    exact hij'

theorem detect_signals_sorted_witness :
    List.Pairwise (fun a b => a.time < b.time) [candleFlat, candleUp] ∧
      List.Pairwise (fun s t => s.time < t.time ∨
        (s.time = t.time ∧ s.type = SignalType.resistance ∧
          t.type = SignalType.support))
        (detectBreakout [candleFlat, candleUp] 1) :=
  ⟨by decide, detect_signals_sorted [candleFlat, candleUp] 1 (by decide)⟩

theorem stepAt_eq_of_lt (candles : List KlineData) (period i : ℕ)
    (h : i < candles.length) :
    stepAt candles period i =
      candleSignals candles period i (candles.get ⟨i, h⟩) := by
  unfold stepAt
  rw [List.get?_eq_get h]

/-- For a non-negative period the signed loop never dereferences
`undefined`: it returns exactly the concatenated loop-body signals over the
remaining indices. -/
theorem detectJSLoop_nonneg (candles : List KlineData) (p : ℕ) :
    ∀ (n i : ℕ), candles.length ≤ i + n →
      detectJSLoop candles (p : ℤ) n (i : ℤ) =
        Except.ok ((List.range' i (candles.length - i)).flatMap
          (stepAt candles p)) := by
  intro n
  induction n with
  | zero =>
    intro i hle
    have h0 : candles.length - i = 0 := by omega
    rw [h0]
    rfl
  | succ n ih =>
    intro i hle
    by_cases hlt : i < candles.length
    · have h1 : (i : ℤ) < (candles.length : ℤ) := by exact_mod_cast hlt
      have h2 : (0 : ℤ) ≤ (i : ℤ) := Int.natCast_nonneg i
      rw [detectJSLoop, dif_pos h1, dif_pos h2]
      have hcast : ((i : ℤ) + 1) = ((i + 1 : ℕ) : ℤ) := by push_cast; ring
      rw [hcast, ih (i + 1) (by omega)]
      have hwin : candles.length - i = (candles.length - (i + 1)) + 1 := by
        omega
      rw [hwin, List.range'_succ, List.flatMap_cons,
        stepAt_eq_of_lt candles p i hlt]
      simp only [Int.toNat_natCast]
    · have h1 : ¬ ((i : ℤ) < (candles.length : ℤ)) := by exact_mod_cast hlt
      rw [detectJSLoop, dif_neg h1]
      have h0 : candles.length - i = 0 := by omega
      rw [h0]
      rfl

/-- For a natural-number period the signed embedding agrees with
`detectBreakout` and never throws. -/
theorem detectBreakoutJS_nonneg (candles : List KlineData) (p : ℕ) :
    detectBreakoutJS candles (p : ℤ) =
      Except.ok (detectBreakout candles p) := by
  unfold detectBreakoutJS
  by_cases h : candles.length < p
  · rw [if_pos (by exact_mod_cast h)]
    have h0 : detectBreakout candles p = [] := by simp [detectBreakout, h]
    rw [h0]
  · rw [if_neg (by exact_mod_cast h)]
    have hto : ((candles.length : ℤ) - (p : ℤ)).toNat = candles.length - p := by
      omega
    rw [hto, detectJSLoop_nonneg candles p (candles.length - p) p (by omega),
      detectBreakout_eq_flatMap]

/-- With window `0` the baseline window is empty, `resistance = -Infinity`
and `support = +Infinity`, so every candle triggers both tests and both
confirmation conjuncts. -/
theorem candleSignals_zero (candles : List KlineData) (i : ℕ) (c : KlineData) :
    candleSignals candles 0 i c =
      [{ time := c.time, type := SignalType.resistance, price := c.close,
         confirmed := true },
       { time := c.time, type := SignalType.support, price := c.close,
         confirmed := true }] := by
  simp [candleSignals, resistanceLevel, supportLevel, windowCandles,
    jsMax, jsMin, jsGtBot, jsLtTop]

/-- `detectBreakout` with window `0` emits a confirmed resistance signal and
a confirmed support signal for every single input candle. -/
theorem detectBreakout_zero (candles : List KlineData) :
    detectBreakout candles 0 = candles.flatMap (fun c =>
      [{ time := c.time, type := SignalType.resistance, price := c.close,
         confirmed := true },
       { time := c.time, type := SignalType.support, price := c.close,
         confirmed := true }]) := by
  rw [detectBreakout_eq_flatMap]
  have haux : ∀ (n i : ℕ), candles.length = i + n →
      (List.range' i n).flatMap (stepAt candles 0) =
        (candles.drop i).flatMap (fun c =>
          [{ time := c.time, type := SignalType.resistance,
             price := c.close, confirmed := true },
           { time := c.time, type := SignalType.support, price := c.close,
             confirmed := true }]) := by
    intro n
    induction n with
    | zero =>
      intro i h
      have hi : i = candles.length := by omega
      rw [hi, List.drop_length]
      rfl
    | succ n ih =>
      intro i h
      have hlt : i < candles.length := by omega
      rw [List.range'_succ, List.flatMap_cons,
        List.drop_eq_getElem_cons hlt, List.flatMap_cons,
        stepAt_eq_of_lt candles 0 i hlt, candleSignals_zero,
        ih (i + 1) (by omega)]
      rfl
  rw [Nat.sub_zero, haux candles.length 0 (by omega), List.drop_zero]

/-- For a strictly negative period the loop's first index is negative,
`candles[i]` is `undefined`, and the call throws. -/
theorem detectBreakoutJS_neg (candles : List KlineData) (period : ℤ)
    (h : period < 0) :
    detectBreakoutJS candles period = Except.error typeErrMsg := by
  unfold detectBreakoutJS
  have hlen0 : (0 : ℤ) ≤ (candles.length : ℤ) := Int.natCast_nonneg _
  rw [if_neg (by omega)]
  obtain ⟨k, hk⟩ : ∃ k, ((candles.length : ℤ) - period).toNat = k + 1 :=
    ⟨((candles.length : ℤ) - period).toNat - 1, by omega⟩
  rw [hk, detectJSLoop,
    dif_pos (show period < (candles.length : ℤ) by omega),
    dif_neg (show ¬ (0 : ℤ) ≤ period by omega)]

/-- C4 as stated is false at window `0`: with a nonempty candle list the
call neither fails with an error nor acts as a no-op — it returns two
signals. -/
theorem detect_window_zero_cex :
    detectBreakoutJS [candleFlat] 0 =
      Except.ok
        [{ time := 0, type := SignalType.resistance, price := 95,
           confirmed := true },
         { time := 0, type := SignalType.support, price := 95,
           confirmed := true }] ∧
    detectBreakoutJS [candleFlat] 0 ≠ Except.ok [] := by
  have h1 : detectBreakoutJS [candleFlat] 0 =
      Except.ok
        [{ time := 0, type := SignalType.resistance, price := 95,
           confirmed := true },
         { time := 0, type := SignalType.support, price := 95,
           confirmed := true }] := by
    with_unfolding_all rfl
  refine ⟨h1, ?_⟩
  rw [h1]
  intro hc
  simp at hc

/-- C4 amended: for a strictly negative window, `detectBreakout` throws a
`TypeError` after indexing the sequence at the negative loop index (an
out-of-bounds access yielding `undefined`); for window `0` it performs no
out-of-bounds read but is neither an error nor a no-op: the empty baseline
window makes `resistance = -Infinity` and `support = +Infinity`, so every
candle emits a confirmed resistance signal and a confirmed support
signal. -/
theorem detect_window_nonpos (candles : List KlineData) (period : ℤ)
    (h : period ≤ 0) :
    (period < 0 →
      detectBreakoutJS candles period = Except.error typeErrMsg) ∧
    (period = 0 →
      detectBreakoutJS candles period = Except.ok
        (candles.flatMap (fun c =>
          [{ time := c.time, type := SignalType.resistance,
             price := c.close, confirmed := true },
           { time := c.time, type := SignalType.support, price := c.close,
             confirmed := true }]))) := by
  constructor
  · exact fun hneg => detectBreakoutJS_neg candles period hneg
  · intro h0
    subst h0
    have h2 := detectBreakoutJS_nonneg candles 0
    rw [detectBreakout_zero] at h2
    simpa using h2

theorem detect_window_nonpos_witness :
    ((0 : ℤ) ≤ 0) ∧
    (((0 : ℤ) < 0 →
        detectBreakoutJS [candleFlat] 0 = Except.error typeErrMsg) ∧
     ((0 : ℤ) = 0 →
        detectBreakoutJS [candleFlat] 0 = Except.ok
          ([candleFlat].flatMap (fun c =>
            [{ time := c.time, type := SignalType.resistance,
               price := c.close, confirmed := true },
             { time := c.time, type := SignalType.support,
               price := c.close, confirmed := true }])))) :=
  ⟨by decide, detect_window_nonpos [candleFlat] 0 (by decide)⟩
